import Mathlib

/-!
Shallow embedding of the news-aggregation pipeline of `news.py`
(fetch -> parse -> filter -> rank -> truncate).

Strings are modelled as `List Char` (Python `str` by code points).
Network fetching and XML parsing are I/O / external-library boundaries:
the per-source outcome of fetch+parse is modelled as an explicit
environment value (`FeedResult`), and the XML tree reachable from
`xml.etree.ElementTree` is modelled by `XmlElem`.  All pure logic
(`clean_html`, the keyword filter, `parse_date`, collection, sorting,
slicing) is translated from the source.
-/

/-- Characters treated as whitespace by Python `str.strip` / `str.split`
(ASCII fragment). -/
def isPyWs (c : Char) : Bool :=
  c == ' ' || c == '\t' || c == '\n' || c == '\r' || c == '\x0b' || c == '\x0c'

/-- Python `s.lower()` (ASCII fragment). -/
def toLowerL (s : List Char) : List Char := s.map Char.toLower

/-- Python `s.upper()` (ASCII fragment). -/
def toUpperL (s : List Char) : List Char := s.map Char.toUpper

/-- Python `s.strip()`: drop leading and trailing whitespace. -/
def pyStrip (s : List Char) : List Char :=
  ((s.dropWhile isPyWs).reverse.dropWhile isPyWs).reverse

/-- Python truthiness of an optional string: `None` and `""` are falsy. -/
def pyTruthy : Option (List Char) → Bool
  | none => false
  | some [] => false
  | some (_ :: _) => true

/-- Scanner for the regex `<.*?>` used by `clean_html`: after an opening
angle bracket, look for the next closing bracket; `.` does not match a
newline, so a newline aborts the match at this position.  Returns the
remainder after the closing bracket when the non-greedy match succeeds. -/
def findGt : List Char → Option (List Char)
  | [] => none
  | c :: rest =>
    if c == '>' then some rest
    else if c == '\n' then none
    else findGt rest

/-- One pass of `re.sub(re.compile(r"<.*?>"), "", s)`: scan left to right,
deleting every leftmost non-greedy `<...>` match.  Fuelled for totality;
each step consumes at least one character, so fuel `s.length` is enough. -/
def stripTagsGo : Nat → List Char → List Char
  | 0, s => s
  | fuel + 1, s =>
    match s with
    | [] => []
    | c :: rest =>
      if c == '<' then
        match findGt rest with
        | some rest' => stripTagsGo fuel rest'
        | none => '<' :: stripTagsGo fuel rest
      else c :: stripTagsGo fuel rest

/-- Python `re.sub("<.*?>", "", s)`. -/
def stripTags (s : List Char) : List Char := stripTagsGo s.length s

/-- Decides whether `s` contains a substring matched by `<.*?>`
(an opening bracket with a closing bracket after it, no newline between). -/
def containsTag : List Char → Bool
  | [] => false
  | c :: rest => (c == '<' && (findGt rest).isSome) || containsTag rest

/-- Numeric value of a list of decimal digits. -/
def digitsToNat (s : List Char) : Nat :=
  s.foldl (fun acc c => acc * 10 + (c.toNat - '0'.toNat)) 0

/-- Named character references recognised by the `html.unescape` model
(a subset of the HTML5 table; entries with a terminating semicolon are
tried first, mirroring the longest-match rule). -/
def namedRefs : List (List Char × Char) :=
  ([("amp;", '&'), ("amp", '&'), ("lt;", '<'), ("lt", '<'),
    ("gt;", '>'), ("gt", '>'), ("quot;", '"'), ("quot", '"'),
    ("apos;", '\x27'), ("nbsp;", '\xA0')].map (fun p => (p.fst.toList, p.snd)))

/-- Hexadecimal digit test. -/
def isHexDigit (c : Char) : Bool :=
  c.isDigit || ('a' ≤ c && c ≤ 'f') || ('A' ≤ c && c ≤ 'F')

/-- Hexadecimal value of one digit. -/
def hexDigitVal (c : Char) : Nat :=
  if c.isDigit then c.toNat - '0'.toNat
  else if 'a' ≤ c && c ≤ 'f' then c.toNat - 'a'.toNat + 10
  else c.toNat - 'A'.toNat + 10

/-- Numeric value of a list of hexadecimal digits. -/
def hexToNat (s : List Char) : Nat :=
  s.foldl (fun acc c => acc * 16 + hexDigitVal c) 0

/-- Clamped conversion of a code point to a character. -/
def charOfCode (n : Nat) : Char :=
  if n < 1114112 ∧ (n < 55296 ∨ 57343 < n) then
    Char.ofNat n
  else '�'

/-- Try to read one character reference directly after an ampersand:
`#` digits, `#x` hex digits (optionally semicolon-terminated), or a
named reference from the table.  Returns the decoded text and the
remainder. -/
def parseCharref (s : List Char) : Option (List Char × List Char) :=
  match s with
  | '#' :: rest =>
    match rest with
    | 'x' :: r2 =>
      let ds := r2.takeWhile isHexDigit
      if ds = [] then none
      else
        let r3 := r2.dropWhile isHexDigit
        let r4 := match r3 with | ';' :: t => t | _ => r3
        some ([charOfCode (hexToNat ds)], r4)
    | 'X' :: r2 =>
      let ds := r2.takeWhile isHexDigit
      if ds = [] then none
      else
        let r3 := r2.dropWhile isHexDigit
        let r4 := match r3 with | ';' :: t => t | _ => r3
        some ([charOfCode (hexToNat ds)], r4)
    | _ =>
      let ds := rest.takeWhile Char.isDigit
      if ds = [] then none
      else
        let r3 := rest.dropWhile Char.isDigit
        let r4 := match r3 with | ';' :: t => t | _ => r3
        some ([charOfCode (digitsToNat ds)], r4)
  | _ =>
    (namedRefs.find? (fun p => p.fst.isPrefixOf s)).map
      (fun p => ([p.snd], s.drop p.fst.length))

/-- Fuelled substitution loop of the character-reference regex. -/
def unescapeGo : Nat → List Char → List Char
  | 0, s => s
  | fuel + 1, s =>
    match s with
    | [] => []
    | c :: rest =>
      if c == '&' then
        match parseCharref rest with
        | some (dec, rest') => dec ++ unescapeGo fuel rest'
        | none => '&' :: unescapeGo fuel rest
      else c :: unescapeGo fuel rest

/-- Models Python `html.unescape`: a string without an ampersand is
returned unchanged (the function short-circuits on `'&' not in s`);
otherwise character references are substituted (modelled for numeric
references and a subset of the named-entity table). -/
def unescape (s : List Char) : List Char :=
  if s.contains '&' then unescapeGo s.length s else s

/-- `clean_html` from `news.py`: remove HTML tags and decode entities.
Empty (or absent) input yields the empty string; otherwise tags matching
`<.*?>` are removed, entities decoded, and the result stripped. -/
def clean_html (raw_html : List Char) : List Char :=
  if raw_html = [] then [] else pyStrip (unescape (stripTags raw_html))

/-- Word character of the regex `\b` boundary (ASCII fragment of `\w`):
letters, digits and underscore. -/
def isWordChar (c : Char) : Bool := c.isAlphanum || c == '_'

/-- Whether position `i` of `s` holds a word character (out of range
counts as non-word). -/
def wordAt (s : List Char) (i : Nat) : Bool :=
  match s.get? i with
  | some c => isWordChar c
  | none => false

/-- The regex word boundary `\b` at position `i`: the word-ness of the
character before `i` differs from the word-ness of the character at `i`. -/
def reBoundary (s : List Char) (i : Nat) : Bool :=
  (match i with | 0 => false | j + 1 => wordAt s j) != wordAt s i

/-- Whether the pattern `\b k \b` (with `k` a regex-escaped literal)
matches at position `i` of `s`. -/
def matchAtPos (k s : List Char) (i : Nat) : Bool :=
  k.isPrefixOf (s.drop i) && reBoundary s i && reBoundary s (i + k.length)

/-- Python `re.search(r"\b" + re.escape(k) + r"\b", s) is not None`:
the literal keyword occurs somewhere in `s` with word boundaries on
both ends. -/
def reWordSearch (k s : List Char) : Bool :=
  (List.range (s.length + 1)).any (fun i => matchAtPos k s i)

/-- The fixed keyword list `KEYWORDS` of `news.py`. -/
def KEYWORDS : List (List Char) :=
  (["ai", "artificial intelligence", "machine learning", "deep learning",
    "neural", "algorithm", "computer science", "programming", "software",
    "developer", "coding", "python", "rust", "golang", "linux", "kernel",
    "cybersecurity", "hacker", "data science", "llm", "gpt", "transformer",
    "compiler", "distributed system", "cloud computing", "aws", "azure",
    "google cloud"].map (fun s => s.toList))

/-- The combined search text of the filter in `get_news`:
lowercased title, a single space, then the lowercased description
(`desc.lower() if desc else ""`). -/
def combinedText (title : List Char) (desc : Option (List Char)) : List Char :=
  toLowerL title ++ [' '] ++ (if pyTruthy desc then toLowerL (desc.getD []) else [])

/-- The keyword filter of `get_news`: some keyword matches the combined
text with word boundaries. -/
def itemMatches (title : List Char) (desc : Option (List Char)) : Bool :=
  KEYWORDS.any (fun k => reWordSearch k (combinedText title desc))

/-- Naive Python `datetime` value: the six fields used by the pipeline
(`microsecond` is always zero here).  Comparison is lexicographic, as in
Python. -/
structure DateTime where
  year : Int
  month : Int
  day : Int
  hour : Int
  minute : Int
  second : Int
deriving DecidableEq, Repr

/-- The sentinel `datetime.min` = 0001-01-01 00:00:00. -/
def datetimeMin : DateTime := ⟨1, 1, 1, 0, 0, 0⟩

/-- Python `datetime` strict comparison (lexicographic on the fields). -/
def dateLT (a b : DateTime) : Bool :=
  if a.year ≠ b.year then decide (a.year < b.year)
  else if a.month ≠ b.month then decide (a.month < b.month)
  else if a.day ≠ b.day then decide (a.day < b.day)
  else if a.hour ≠ b.hour then decide (a.hour < b.hour)
  else if a.minute ≠ b.minute then decide (a.minute < b.minute)
  else decide (a.second < b.second)

/-- Python `datetime` non-strict comparison. -/
def dateLE (a b : DateTime) : Bool := !(dateLT b a)

/-- Python `str.split()` with no argument: split on whitespace runs,
discarding empty pieces. -/
def pySplit (s : List Char) : List (List Char) :=
  (s.splitOnP isPyWs).filter (fun t => t ≠ [])

/-- Well-formedness of the digit body of a Python integer literal:
digits with single underscores allowed between digits. -/
def intBodyOk : List Char → Bool
  | [] => false
  | [c] => c.isDigit
  | c :: d :: rest =>
    c.isDigit &&
      (if d == '_' then (match rest with | [] => false | _ :: _ => intBodyOk rest)
       else intBodyOk (d :: rest))

/-- Python `int(s)` on a whitespace-free token: optional sign, then
digits (underscores between digits allowed); `none` models the
`ValueError`. -/
def pyInt (s : List Char) : Option Int :=
  match s with
  | '+' :: rest =>
    if intBodyOk rest then some (digitsToNat (rest.filter (fun c => c != '_'))) else none
  | '-' :: rest =>
    if intBodyOk rest then some (-(digitsToNat (rest.filter (fun c => c != '_')) : Int)) else none
  | _ =>
    if intBodyOk s then some (digitsToNat (s.filter (fun c => c != '_'))) else none

/-- The `_daynames` list of `email._parseaddr`. -/
def DAYNAMES : List (List Char) :=
  (["mon", "tue", "wed", "thu", "fri", "sat", "sun"].map (fun s => s.toList))

/-- The `_monthnames` list of `email._parseaddr` (short then long names;
the index of the first occurrence, plus one, is the month number, reduced
by 12 for long names). -/
def MONTHNAMES : List (List Char) :=
  (["jan", "feb", "mar", "apr", "may", "jun", "jul", "aug", "sep", "oct",
    "nov", "dec", "january", "february", "march", "april", "may", "june",
    "july", "august", "september", "october", "november", "december"].map
    (fun s => s.toList))

/-- The `_timezones` table of `email._parseaddr`. -/
def TIMEZONES : List (List Char × Int) :=
  ([("UT", 0), ("UTC", 0), ("GMT", 0), ("Z", 0),
    ("AST", -400), ("ADT", -300), ("EST", -500), ("EDT", -400),
    ("CST", -600), ("CDT", -500), ("MST", -700), ("MDT", -600),
    ("PST", -800), ("PDT", -700)].map (fun p => (p.fst.toList, p.snd)))

/-- Models `i = s.rfind(","); s = s[i+1:] if i >= 0 else s`: keep only
the part after the last comma, when a comma is present. -/
def afterLastComma (s : List Char) : List Char :=
  if s.contains ',' then (s.reverse.takeWhile (fun c => c != ',')).reverse else s

/-- Models the step of `_parsedate_tz` that separates a timezone glued to
the time token: find `+` (else `-`); if found at a positive index, split
there, otherwise report failure (a dummy empty timezone is appended by
the caller). -/
def tzSplit (s : List Char) : Option (List Char × List Char) :=
  match (match s.findIdx? (fun c => c == '+') with
         | some i => some i
         | none => s.findIdx? (fun c => c == '-')) with
  | none => none
  | some i => if 0 < i then some (s.take i, s.drop i) else none

/-- Models the time-of-day splitting of `_parsedate_tz`: `hh:mm`,
`hh:mm:ss`, or the same with dots when no colon occurs. -/
def timeSplit (tm : List Char) : Option (List Char × List Char × List Char) :=
  match tm.splitOn ':' with
  | [a, b] => some (a, b, ("0").toList)
  | [a, b, c] => some (a, b, c)
  | [x] =>
    if x.contains '.' then
      match x.splitOn '.' with
      | [a, b] => some (a, b, ("0").toList)
      | [a, b, c] => some (a, b, c)
      | _ => none
    else none
  | _ => none

/-- Models `email._parseaddr._parsedate_tz` (the parser behind
`email.utils.parsedate_to_datetime`): returns
`(year, month, day, hour, minute, second, tzoffset-seconds)` or `none`
on any failure.  The two `[] => none` guards correspond to an
`IndexError` raised by `yy[-1]` / `yy[0]` on an emptied year token,
which the caller of `parse_date` absorbs like any other failure. -/
def parsedate_tz (s : List Char) :
    Option (Int × Int × Int × Int × Int × Int × Option Int) :=
  if s = [] then none else
  match pySplit s with
  | [] => none
  | d0 :: drest =>
    let data1 : List (List Char) :=
      if (d0.getLast? == some ',') || (toLowerL d0) ∈ DAYNAMES then drest
      else (afterLastComma d0) :: drest
    let data2 : List (List Char) :=
      if data1.length == 3 then
        match data1 with
        | x :: rest =>
          (match x.splitOn '-' with
           | [a, b, c] => [a, b, c] ++ rest
           | _ => data1)
        | [] => data1
      else data1
    let data3 : List (List Char) :=
      if data2.length == 4 then
        match data2.getLast? with
        | some s3 =>
          (match tzSplit s3 with
           | some (a, b) => data2.dropLast ++ [a, b]
           | none => data2 ++ [[]])
        | none => data2
      else data2
    if data3.length < 5 then none else
    match data3.take 5 with
    | [dd0, mm0, yy0, tm0, tz0] =>
      if dd0 = [] ∨ mm0 = [] ∨ yy0 = [] then none else
      let mmL := toLowerL mm0
      let dm : Option (List Char × List Char) :=
        if mmL ∈ MONTHNAMES then some (dd0, mmL)
        else if (toLowerL dd0) ∈ MONTHNAMES then some (mm0, toLowerL dd0)
        else none
      match dm with
      | none => none
      | some (dd1, mmName) =>
        match MONTHNAMES.findIdx? (fun m => m == mmName) with
        | none => none
        | some idx =>
          let mm1 : Int := if (idx : Int) + 1 > 12 then (idx : Int) + 1 - 12 else (idx : Int) + 1
          let dd2 := if dd1.getLast? == some ',' then dd1.dropLast else dd1
          let yt : List Char × List Char :=
            match yy0.findIdx? (fun c => c == ':') with
            | some i => if 0 < i then (tm0, yy0) else (yy0, tm0)
            | none => (yy0, tm0)
          match yt with
          | (yy1, tm1) =>
          match yy1 with
          | [] => none
          | _ :: _ =>
            let yy2 := if yy1.getLast? == some ',' then yy1.dropLast else yy1
            match yy2 with
            | [] => none
            | yc :: _ =>
              let ytz : List Char × List Char :=
                if yc.isDigit then (yy2, tz0) else (tz0, yy2)
              match ytz with
              | (yy3, tz1) =>
              match tm1 with
              | [] => none
              | _ :: _ =>
                let tm2 := if tm1.getLast? == some ',' then tm1.dropLast else tm1
                match timeSplit tm2 with
                | none => none
                | some (hs, ms, ss) =>
                  match pyInt yy3, pyInt dd2, pyInt hs, pyInt ms, pyInt ss with
                  | some yv0, some dv, some hv, some mv, some sv =>
                    let yv := if yv0 < 100 then (if yv0 > 68 then yv0 + 1900 else yv0 + 2000) else yv0
                    let tzU := toUpperL tz1
                    let tzofs0 : Option Int :=
                      match TIMEZONES.find? (fun p => p.fst == tzU) with
                      | some p => some p.snd
                      | none => pyInt tzU
                    let tzofs1 : Option Int :=
                      match tzofs0 with
                      | some v => if v = 0 ∧ tzU.head? = some '-' then none else some v
                      | none => none
                    let tzofs2 : Option Int :=
                      match tzofs1 with
                      | some v =>
                        if v = 0 then some 0
                        else some ((if v < 0 then (-1 : Int) else 1) *
                          (((v.natAbs / 100) * 3600 + (v.natAbs % 100) * 60 : Nat) : Int))
                      | none => none
                    some (yv, mm1, dv, hv, mv, sv, tzofs2)
                  | _, _, _, _, _ => none
    | _ => none

/-- Whether `y` is a leap year (proleptic Gregorian, as in `datetime`). -/
def isLeap (y : Int) : Bool := y % 4 == 0 && (y % 100 != 0 || y % 400 == 0)

/-- Number of days of month `m` in year `y`. -/
def daysInMonth (y m : Int) : Int :=
  if m == 2 then (if isLeap y then 29 else 28)
  else if m == 4 || m == 6 || m == 9 || m == 11 then 30
  else 31

/-- The range checks of the `datetime.datetime` constructor: `none`
models the `ValueError` on an out-of-range field. -/
def mkDatetime (y mo d h mi s : Int) : Option DateTime :=
  if 1 ≤ y ∧ y ≤ 9999 ∧ 1 ≤ mo ∧ mo ≤ 12 ∧ 1 ≤ d ∧ d ≤ daysInMonth y mo ∧
     0 ≤ h ∧ h ≤ 23 ∧ 0 ≤ mi ∧ mi ≤ 59 ∧ 0 ≤ s ∧ s ≤ 59
  then some ⟨y, mo, d, h, mi, s⟩ else none

/-- Models `email.utils.parsedate_to_datetime` followed by the
`.replace(tzinfo=None)` of `news.py`: build the naive datetime from the
parsed fields; with a timezone offset present, `datetime.timezone`
additionally requires the offset to be strictly between -24h and +24h
(`ValueError` otherwise), while the clock fields are unaffected because
`replace(tzinfo=None)` performs no conversion. -/
def parsedate_to_datetime (s : List Char) : Option DateTime :=
  match parsedate_tz s with
  | none => none
  | some (y, mo, d, h, mi, se, tzo) =>
    match tzo with
    | none => mkDatetime y mo d h mi se
    | some off =>
      if -86400 < off ∧ off < 86400 then mkDatetime y mo d h mi se else none

/-- `parse_date` from `news.py`: total date normalizer.  A falsy input
(empty string, or the `None` of a missing element, passed here as `[]`)
and any parse failure yield the sentinel `datetime.min`. -/
def parse_date (s : List Char) : DateTime :=
  if s = [] then datetimeMin
  else
    match parsedate_to_datetime s with
    | some d => d
    | none => datetimeMin

/-- Fragment of an `xml.etree.ElementTree` element: tag, text content
(`none` models Python `None` for an element with no text), children. -/
inductive XmlElem where
  | mk (tag : List Char) (text : Option (List Char)) (children : List XmlElem)

/-- Tag of an element. -/
def XmlElem.tag : XmlElem → List Char
  | .mk t _ _ => t

/-- Text of an element (`none` = Python `None`). -/
def XmlElem.text : XmlElem → Option (List Char)
  | .mk _ x _ => x

/-- Children of an element. -/
def XmlElem.children : XmlElem → List XmlElem
  | .mk _ _ c => c

/-- `element.find(tag)`: first direct child with the given tag. -/
def findChild (e : XmlElem) (t : List Char) : Option XmlElem :=
  e.children.find? (fun c => c.tag == t)

/-- `element.findall(tag)`: all direct children with the given tag. -/
def findAllChildren (e : XmlElem) (t : List Char) : List XmlElem :=
  e.children.filter (fun c => c.tag == t)

/-- The per-field extraction of `get_news`:
`item.find(t).text if item.find(t) is not None else ""`.
A missing element yields the empty string; a present element yields its
text, which may be Python `None`. -/
def fieldText (item : XmlElem) (t : List Char) : Option (List Char) :=
  match findChild item t with
  | none => some []
  | some e => e.text

/-- The output unit appended to `all_items` by `get_news`. -/
structure NewsItem where
  title : List Char
  link : List Char
  desc : List Char
  date : DateTime
  source : List Char
deriving DecidableEq, Repr

/-- The description expression of `get_news`:
`clean_html(desc)[:200] + "..." if desc else "No description."`. -/
def descField (desc : Option (List Char)) : List Char :=
  if pyTruthy desc then (clean_html (desc.getD [])).take 200 ++ ("...").toList
  else ("No description.").toList

/-- The record literal appended to `all_items` by `get_news`. -/
def buildItem (url title link : List Char) (desc pubDate : Option (List Char)) :
    NewsItem :=
  { title := pyStrip title
    link := pyStrip link
    desc := descField desc
    date := parse_date (pubDate.getD [])
    source := url }

/-- Processing of one `<item>` element inside `get_news`:
`ok none` = the item is skipped (missing/empty title, or no keyword
match); `ok (some n)` = the item is appended; `error ()` models the
uncaught `AttributeError` raised by `link.strip()` when the link
element is present but empty (`None` text) on an accepted item. -/
def procItem (url : List Char) (item : XmlElem) : Except Unit (Option NewsItem) :=
  if pyTruthy (fieldText item (("title").toList)) = false then .ok none
  else if itemMatches ((fieldText item (("title").toList)).getD [])
           (fieldText item (("description").toList)) = false then .ok none
  else
    match fieldText item (("link").toList) with
    | none => .error ()
    | some link =>
      .ok (some (buildItem url ((fieldText item (("title").toList)).getD []) link
        (fieldText item (("description").toList)) (fieldText item (("pubDate").toList))))

/-- Sequential processing of the items of one channel, in document
order; an error aborts the whole aggregation (nothing catches it). -/
def procItems (url : List Char) : List XmlElem → Except Unit (List NewsItem)
  | [] => .ok []
  | it :: its =>
    match procItem url it with
    | .error e => .error e
    | .ok none => procItems url its
    | .ok (some n) =>
      match procItems url its with
      | .error e => .error e
      | .ok rest => .ok (n :: rest)

/-- Outcome of `fetch_feed` plus `ET.fromstring` for one source:
`failed` = `fetch_feed` returned `None` (or empty bytes, both falsy);
`malformed` = `ET.fromstring` raised `ET.ParseError` (caught, feed
skipped); `parsed root` = a well-formed document tree. -/
inductive FeedResult where
  | failed
  | malformed
  | parsed (root : XmlElem)

/-- One configured source together with its fetch/parse outcome (the
environment of a run: fetching is I/O, so its result is supplied). -/
structure Feed where
  url : List Char
  result : FeedResult

/-- Contribution of one source to `all_items` in `get_news`: fetch
failures and parse errors are skipped (`continue`), as is a document
without a top-level `channel` child. -/
def procFeed (f : Feed) : Except Unit (List NewsItem) :=
  match f.result with
  | .failed => .ok []
  | .malformed => .ok []
  | .parsed root =>
    match findChild root (("channel").toList) with
    | none => .ok []
    | some ch => procItems f.url (findAllChildren ch (("item").toList))

/-- The collection loop of `get_news` over all configured sources, in
order. -/
def collectNews : List Feed → Except Unit (List NewsItem)
  | [] => .ok []
  | f :: fs =>
    match procFeed f with
    | .error e => .error e
    | .ok items =>
      match collectNews fs with
      | .error e => .error e
      | .ok rest => .ok (items ++ rest)

/-- Stable insertion of an item into a date-descending list: the new
item goes after every already-present item whose date is not strictly
smaller, so equal dates keep collection order. -/
def insertDesc (x : NewsItem) : List NewsItem → List NewsItem
  | [] => [x]
  | y :: ys => if dateLT y.date x.date then x :: y :: ys else y :: insertDesc x ys

/-- `all_items.sort(key=lambda x: x["date"], reverse=True)`: Python
list.sort is stable, and with `reverse=True` equal keys also keep their
original order; a stable descending sort is the unique list with that
property, computed here by stable insertion. -/
def sortDesc (l : List NewsItem) : List NewsItem :=
  l.foldl (fun acc x => insertDesc x acc) []

/-- Python `l[:k]` for an arbitrary integer `k`: a non-negative bound
takes the first `k` elements; a negative bound drops the last `|k|`
elements (empty result when `|k|` exceeds the length). -/
def pySliceTo (l : List NewsItem) (k : Int) : List NewsItem :=
  if 0 ≤ k then l.take k.toNat else l.take ((l.length : Int) + k).toNat

/-- `MAX_ITEMS` from `news.py`: the default limit of `get_news` and the
default of the CLI `--limit` option. -/
def MAX_ITEMS : Int := 4

/-- `get_news(shuffle, limit)` from `news.py`, over an explicit list of
per-source outcomes.  `random.shuffle` is nondeterministic, so shuffle
mode is modelled by an arbitrary rearrangement oracle (unused in date
mode); date mode sorts by date descending.  The result is then sliced
to `limit` items.  The Python defaults are `shuffle=False`,
`limit=MAX_ITEMS`. -/
def get_news (shuffle : Bool) (oracle : List NewsItem → List NewsItem)
    (limit : Int) (feeds : List Feed) : Except Unit (List NewsItem) :=
  match collectNews feeds with
  | .error e => .error e
  | .ok all_items =>
    .ok (pySliceTo (if shuffle then oracle all_items else sortDesc all_items) limit)

/-- The fixed feed list `RSS_FEEDS` of `news.py` (the URLs iterated by
`get_news`; each run supplies one `FeedResult` per URL). -/
def RSS_FEEDS : List (List Char) :=
  (["https://news.ycombinator.com/rss",
    "https://feeds.arstechnica.com/arstechnica/index",
    "https://www.techradar.com/feeds/news",
    "https://feeds.bloomberg.com/markets/news.rss",
    "https://feeds.theverge.com/theverge/index.xml",
    "https://dev.to/feed",
    "https://rss.nytimes.com/services/xml/rss/nyt/Technology.xml"].map
    (fun s => s.toList))

/-- Test fixture: an item whose fields are all present and keyworded
("python"), dated 2025-01-06. -/
def itemA1 : XmlElem := .mk (("item").toList) none
  [.mk (("title").toList) (some (("Python 3.13 released").toList)) [],
   .mk (("link").toList) (some (("http://a/1").toList)) [],
   .mk (("description").toList) (some (("The python team ships a new version").toList)) [],
   .mk (("pubDate").toList) (some (("Mon, 06 Jan 2025 10:00:00 +0000").toList)) []]

/-- Test fixture: an item with no description element ("rust", "kernel"),
dated 2025-01-07. -/
def itemA2 : XmlElem := .mk (("item").toList) none
  [.mk (("title").toList) (some (("Rust in the kernel").toList)) [],
   .mk (("link").toList) (some (("http://a/2").toList)) [],
   .mk (("pubDate").toList) (some (("Tue, 07 Jan 2025 09:30:00 +0000").toList)) []]

/-- Test fixture: an item with a named-timezone date ("ai"), dated
2025-01-05. -/
def itemA3 : XmlElem := .mk (("item").toList) none
  [.mk (("title").toList) (some (("AI beats humans").toList)) [],
   .mk (("link").toList) (some (("http://a/3").toList)) [],
   .mk (("description").toList) (some (("the ai won").toList)) [],
   .mk (("pubDate").toList) (some (("Sun, 05 Jan 2025 08:00:00 GMT").toList)) []]

/-- Test fixture: a well-formed feed with three matching items. -/
def rootA : XmlElem :=
  .mk (("rss").toList) none [.mk (("channel").toList) none [itemA1, itemA2, itemA3]]

/-- Test fixture: source A, successfully fetched and parsed. -/
def feedA : Feed := ⟨("http://a").toList, .parsed rootA⟩

/-- Test fixture: source B, failed fetch. -/
def feedB : Feed := ⟨("http://b").toList, .failed⟩

/-- The NewsItem produced from `itemA1`. -/
def newsA1 : NewsItem :=
  ⟨("Python 3.13 released").toList, ("http://a/1").toList,
   ("The python team ships a new version...").toList,
   ⟨2025, 1, 6, 10, 0, 0⟩, ("http://a").toList⟩

/-- The NewsItem produced from `itemA2`. -/
def newsA2 : NewsItem :=
  ⟨("Rust in the kernel").toList, ("http://a/2").toList,
   ("No description.").toList, ⟨2025, 1, 7, 9, 30, 0⟩, ("http://a").toList⟩

/-- The NewsItem produced from `itemA3`. -/
def newsA3 : NewsItem :=
  ⟨("AI beats humans").toList, ("http://a/3").toList,
   ("the ai won...").toList, ⟨2025, 1, 5, 8, 0, 0⟩, ("http://a").toList⟩

/-- Test fixture: an item whose title is a single space (truthy in
Python) and whose description matches the keyword "ai". -/
def cexItem : XmlElem := .mk (("item").toList) none
  [.mk (("title").toList) (some ((" ").toList)) [],
   .mk (("link").toList) (some (("http://x").toList)) [],
   .mk (("description").toList) (some (("ai").toList)) []]

/-- The NewsItem produced from `cexItem`: its stored title is empty. -/
def cexNews : NewsItem :=
  ⟨[], ("http://x").toList, ("ai...").toList, datetimeMin, ("u").toList⟩

/-- Test fixture: an item with a whitespace-padded title matching
"rust" and no description element. -/
def witItem1 : XmlElem := .mk (("item").toList) none
  [.mk (("title").toList) (some (("  Rust news  ").toList)) [],
   .mk (("link").toList) (some (("http://w/1").toList)) []]

/-- The NewsItem produced from `witItem1`. -/
def witNews1 : NewsItem :=
  ⟨("Rust news").toList, ("http://w/1").toList,
   ("No description.").toList, datetimeMin, ("w").toList⟩

/-- Test fixture: an item whose description carries an HTML tag
("python"). -/
def witItem3 : XmlElem := .mk (("item").toList) none
  [.mk (("title").toList) (some (("python tip").toList)) [],
   .mk (("link").toList) (some (("http://w/3").toList)) [],
   .mk (("description").toList) (some (("<b>AI</b> wins").toList)) []]

/-- The NewsItem produced from `witItem3`. -/
def witNews3 : NewsItem :=
  ⟨("python tip").toList, ("http://w/3").toList,
   ("AI wins...").toList, datetimeMin, ("w").toList⟩

/-- Test fixture: a well-formed document without a `channel` child. -/
def emptyRoot : XmlElem := .mk (("rss").toList) none []

/-! ## Lemmas about the sanitizer -/

theorem contains_eq_false_of_not_mem {c : Char} {s : List Char} (h : c ∉ s) :
    s.contains c = false := by
  induction s with
  | nil => rfl
  | cons d t ih =>
    simp only [List.contains_cons, Bool.or_eq_false_iff]
    constructor
    · simp only [beq_eq_false_iff_ne, ne_eq]
      intro he
      exact h (he ▸ List.mem_cons_self d t)
    · exact ih (fun hm => h (List.mem_cons_of_mem d hm))

theorem stripTagsGo_eq_self (fuel : Nat) :
    ∀ s : List Char, containsTag s = false → stripTagsGo fuel s = s := by
  induction fuel with
  | zero => intro s _; rfl
  | succ n ih =>
    intro s h
    cases s with
    | nil => rfl
    | cons c rest =>
      simp only [containsTag, Bool.or_eq_false_iff, Bool.and_eq_false_iff] at h
      simp only [stripTagsGo]
      by_cases hc : c == '<'
      · rw [if_pos hc]
        have hg : findGt rest = none := by
          rcases h.1 with h1 | h1
          · simp [hc] at h1
          · exact Option.not_isSome_iff_eq_none.mp (by simp [h1])
        rw [hg]
        have hc2 : c = '<' := by simpa using hc
        subst hc2
        rw [ih rest h.2]
      · rw [if_neg hc, ih rest h.2]

theorem stripTags_eq_self {s : List Char} (h : containsTag s = false) :
    stripTags s = s := stripTagsGo_eq_self s.length s h

theorem unescape_eq_self {s : List Char} (h : s.contains '&' = false) :
    unescape s = s := by
  unfold unescape
  rw [h]
  simp

theorem findGt_none_front :
    ∀ {t u : List Char}, t <+: u → findGt u = none → findGt t = none := by
  intro t
  induction t with
  | nil => intro u _ _; rfl
  | cons c t' ih =>
    intro u h hu
    obtain ⟨r, hr⟩ := h
    cases u with
    | nil => simp at hr
    | cons d u' =>
      rw [List.cons_append] at hr
      injection hr with h1 h2
      subst h1
      unfold findGt at hu ⊢
      by_cases hgt : c == '>'
      · rw [if_pos hgt] at hu; exact absurd hu (by simp)
      · rw [if_neg hgt] at hu ⊢
        by_cases hnl : c == '\n'
        · rw [if_pos hnl]
        · rw [if_neg hnl] at hu ⊢
          exact ih ⟨r, h2⟩ hu

theorem containsTag_front :
    ∀ {t u : List Char}, t <+: u → containsTag u = false → containsTag t = false := by
  intro t
  induction t with
  | nil => intro u _ _; rfl
  | cons c t' ih =>
    intro u h hu
    obtain ⟨r, hr⟩ := h
    cases u with
    | nil => simp at hr
    | cons d u' =>
      rw [List.cons_append] at hr
      injection hr with h1 h2
      subst h1
      simp only [containsTag, Bool.or_eq_false_iff, Bool.and_eq_false_iff] at hu ⊢
      refine ⟨?_, ih ⟨r, h2⟩ hu.2⟩
      rcases hu.1 with h1 | h1
      · exact Or.inl h1
      · right
        have hgn : findGt u' = none := Option.not_isSome_iff_eq_none.mp (by simp [h1])
        rw [findGt_none_front ⟨r, h2⟩ hgn]
        rfl

theorem containsTag_back :
    ∀ {t u : List Char}, t <:+ u → containsTag u = false → containsTag t = false := by
  intro t u h hu
  obtain ⟨r, hr⟩ := h
  subst hr
  induction r with
  | nil => simpa using hu
  | cons x r' ih =>
    apply ih
    simp only [List.cons_append, containsTag, Bool.or_eq_false_iff] at hu
    exact hu.2

theorem containsTag_of_infix {t u : List Char} (h : t <:+: u)
    (hu : containsTag u = false) : containsTag t = false := by
  obtain ⟨s₁, s₂, hs⟩ := h
  have hsuf : t ++ s₂ <:+ u := ⟨s₁, by rw [← List.append_assoc, hs]⟩
  exact containsTag_front ⟨s₂, rfl⟩ (containsTag_back hsuf hu)

theorem dropWhile_eq_self_front {p : Char → Bool} :
    ∀ {t u : List Char}, t <+: u → List.dropWhile p u = u → List.dropWhile p t = t := by
  intro t u h hu
  cases t with
  | nil => rfl
  | cons c t' =>
    obtain ⟨r, hr⟩ := h
    cases u with
    | nil => simp at hr
    | cons d u' =>
      rw [List.cons_append] at hr
      injection hr with h1 h2
      subst h1
      by_cases hp : p c
      · exfalso
        rw [List.dropWhile_cons, if_pos hp] at hu
        have hle : (List.dropWhile p u').length ≤ u'.length :=
          (List.dropWhile_suffix p).sublist.length_le
        rw [hu] at hle
        simp at hle
      · rw [List.dropWhile_cons, if_neg hp]

theorem pyStrip_part (s : List Char) : pyStrip s <:+: s := by
  obtain ⟨r, hr⟩ := List.rdropWhile_prefix isPyWs (s.dropWhile isPyWs)
  obtain ⟨w, hw⟩ := (List.dropWhile_suffix isPyWs : List.dropWhile isPyWs s <:+ s)
  exact ⟨w, r, by rw [show pyStrip s = List.rdropWhile isPyWs (s.dropWhile isPyWs) from rfl,
    List.append_assoc, hr, hw]⟩

theorem pyStrip_idem (s : List Char) : pyStrip (pyStrip s) = pyStrip s := by
  have h1 : List.dropWhile isPyWs (s.dropWhile isPyWs) = s.dropWhile isPyWs :=
    List.dropWhile_idempotent _ _
  have h2 : pyStrip s <+: s.dropWhile isPyWs := List.rdropWhile_prefix _ _
  have h3 : List.dropWhile isPyWs (pyStrip s) = pyStrip s :=
    dropWhile_eq_self_front h2 h1
  show List.rdropWhile isPyWs (List.dropWhile isPyWs (pyStrip s)) = pyStrip s
  rw [h3]
  exact List.rdropWhile_idempotent _ _

theorem mem_dropWhile_of_not {p : Char → Bool} {c : Char} :
    ∀ {l : List Char}, c ∈ l → p c = false → c ∈ l.dropWhile p := by
  intro l
  induction l with
  | nil => intro h _; cases h
  | cons a l' ih =>
    intro h hc
    rw [List.dropWhile_cons]
    by_cases ha : p a
    · rw [if_pos ha]
      rcases List.mem_cons.mp h with h | h
      · subst h; rw [ha] at hc; cases hc
      · exact ih h hc
    · rw [if_neg ha]; exact h

theorem pyStrip_ne_nil {s : List Char} {c : Char} (hm : c ∈ s) (hc : isPyWs c = false) :
    pyStrip s ≠ [] := by
  have h1 : c ∈ s.dropWhile isPyWs := mem_dropWhile_of_not hm hc
  have h2 : c ∈ (s.dropWhile isPyWs).reverse := List.mem_reverse.mpr h1
  have h3 : c ∈ (s.dropWhile isPyWs).reverse.dropWhile isPyWs := mem_dropWhile_of_not h2 hc
  have h4 : c ∈ pyStrip s := List.mem_reverse.mpr h3
  exact List.ne_nil_of_mem h4

/-! ## Lemmas about the date order and the stable sort -/

theorem dateLT_iff (a b : DateTime) : dateLT a b = true ↔
    (a.year < b.year ∨ (a.year = b.year ∧ (a.month < b.month ∨ (a.month = b.month ∧
      (a.day < b.day ∨ (a.day = b.day ∧ (a.hour < b.hour ∨ (a.hour = b.hour ∧
        (a.minute < b.minute ∨ (a.minute = b.minute ∧ a.second < b.second)))))))))) := by
  unfold dateLT
  split_ifs <;> simp_all

theorem dateLT_irrefl (a : DateTime) : dateLT a a = false := by
  rw [Bool.eq_false_iff]
  intro h
  rw [dateLT_iff] at h
  omega

theorem dateLT_asymm {a b : DateTime} (h : dateLT a b = true) : dateLT b a = false := by
  rw [Bool.eq_false_iff]
  intro h2
  rw [dateLT_iff] at h h2
  omega

theorem dateLE_of_dateLT {a b : DateTime} (h : dateLT a b = true) : dateLE a b = true := by
  unfold dateLE
  rw [dateLT_asymm h]
  rfl

theorem dateLE_of_not_dateLT {a b : DateTime} (h : dateLT b a = false) : dateLE a b = true := by
  unfold dateLE
  rw [h]
  rfl

theorem dateLE_trans {a b c : DateTime} (h1 : dateLE a b = true) (h2 : dateLE b c = true) :
    dateLE a c = true := by
  unfold dateLE at h1 h2 ⊢
  rw [Bool.not_eq_eq_eq_not] at h1 h2 ⊢
  simp only [Bool.not_true] at h1 h2 ⊢
  rw [Bool.eq_false_iff] at h1 h2 ⊢
  intro h3
  rw [dateLT_iff] at h3
  have h4 : ¬ (dateLT b a = true) := h1
  have h5 : ¬ (dateLT c b = true) := h2
  rw [dateLT_iff] at h4 h5
  omega

theorem insertDesc_perm (x : NewsItem) : ∀ l : List NewsItem, (insertDesc x l).Perm (x :: l)
  | [] => List.Perm.refl _
  | y :: ys => by
    unfold insertDesc
    split
    · exact List.Perm.refl _
    · exact ((insertDesc_perm x ys).cons y).trans (List.Perm.swap x y ys)

theorem sortDesc_aux_perm :
    ∀ (l acc : List NewsItem),
      (l.foldl (fun acc x => insertDesc x acc) acc).Perm (acc ++ l)
  | [], acc => by simp
  | x :: l, acc => by
    simp only [List.foldl_cons]
    refine (sortDesc_aux_perm l (insertDesc x acc)).trans ?_
    refine (List.Perm.append_right l (insertDesc_perm x acc)).trans ?_
    exact List.perm_middle.symm

theorem sortDesc_perm (l : List NewsItem) : (sortDesc l).Perm l := by
  simpa using sortDesc_aux_perm l []

theorem mem_insertDesc {z x : NewsItem} {l : List NewsItem} :
    z ∈ insertDesc x l ↔ z = x ∨ z ∈ l := by
  rw [(insertDesc_perm x l).mem_iff, List.mem_cons]

theorem insertDesc_pairwise {x : NewsItem} :
    ∀ {l : List NewsItem},
      l.Pairwise (fun a b => dateLE b.date a.date = true) →
      (insertDesc x l).Pairwise (fun a b => dateLE b.date a.date = true) := by
  intro l
  induction l with
  | nil => intro _; simp [insertDesc]
  | cons y ys ih =>
    intro h
    rw [List.pairwise_cons] at h
    unfold insertDesc
    split
    · next hlt =>
      rw [List.pairwise_cons]
      refine ⟨?_, List.pairwise_cons.mpr h⟩
      intro z hz
      rcases List.mem_cons.mp hz with hz | hz
      · subst hz
        exact dateLE_of_dateLT hlt
      · exact dateLE_trans (h.1 z hz) (dateLE_of_dateLT hlt)
    · next hlt =>
      rw [List.pairwise_cons]
      refine ⟨?_, ih h.2⟩
      intro z hz
      rcases mem_insertDesc.mp hz with hz | hz
      · subst hz
        exact dateLE_of_not_dateLT (Bool.eq_false_iff.mpr hlt)
      · exact h.1 z hz

theorem sortDesc_aux_pairwise :
    ∀ (l acc : List NewsItem),
      acc.Pairwise (fun a b => dateLE b.date a.date = true) →
      (l.foldl (fun acc x => insertDesc x acc) acc).Pairwise
        (fun a b => dateLE b.date a.date = true)
  | [], _, h => h
  | x :: l, acc, h => by
    simp only [List.foldl_cons]
    exact sortDesc_aux_pairwise l (insertDesc x acc) (insertDesc_pairwise h)

theorem sortDesc_pairwise (l : List NewsItem) :
    (sortDesc l).Pairwise (fun a b => dateLE b.date a.date = true) :=
  sortDesc_aux_pairwise l [] (List.Pairwise.nil)

theorem insertDesc_filter {x : NewsItem} {d : DateTime} :
    ∀ {l : List NewsItem}, l.Pairwise (fun a b => dateLE b.date a.date = true) →
      (insertDesc x l).filter (fun z => decide (z.date = d)) =
        l.filter (fun z => decide (z.date = d)) ++ (if x.date = d then [x] else []) := by
  intro l
  induction l with
  | nil =>
    intro _
    by_cases hxd : x.date = d <;> simp [insertDesc, List.filter, hxd]
  | cons y ys ih =>
    intro h
    rw [List.pairwise_cons] at h
    unfold insertDesc
    split
    · next hlt =>
      by_cases hxd : x.date = d
      · have hnil : (y :: ys).filter (fun z => decide (z.date = d)) = [] := by
          rw [List.filter_eq_nil_iff]
          intro z hz
          simp only [decide_eq_true_eq]
          intro hzd
          rcases List.mem_cons.mp hz with hz | hz
          · subst hz
            have hzz : dateLT z.date x.date = true := hlt
            rw [hzd, hxd] at hzz
            rw [dateLT_irrefl] at hzz
            cases hzz
          · have h1 : dateLE z.date y.date = true := h.1 z hz
            have h2 : dateLE x.date y.date = true := by
              rw [hxd, ← hzd]
              exact h1
            unfold dateLE at h2
            rw [hlt] at h2
            cases h2
        simp [List.filter_cons, hxd, hnil]
      · simp [List.filter_cons, hxd]
    · next hlt =>
      simp only [List.filter_cons]
      rw [ih h.2]
      by_cases hyd : y.date = d
      · simp [hyd]
      · simp [hyd]

theorem sortDesc_aux_filter (d : DateTime) :
    ∀ (l acc : List NewsItem),
      acc.Pairwise (fun a b => dateLE b.date a.date = true) →
      (l.foldl (fun acc x => insertDesc x acc) acc).filter (fun z => decide (z.date = d)) =
        acc.filter (fun z => decide (z.date = d)) ++ l.filter (fun z => decide (z.date = d))
  | [], acc, _ => by simp
  | x :: l, acc, h => by
    simp only [List.foldl_cons]
    rw [sortDesc_aux_filter d l (insertDesc x acc) (insertDesc_pairwise h)]
    rw [insertDesc_filter h]
    rw [List.filter_cons]
    by_cases hxd : x.date = d
    · simp [hxd]
    · simp [hxd]

theorem sortDesc_filter (d : DateTime) (l : List NewsItem) :
    (sortDesc l).filter (fun z => decide (z.date = d)) =
      l.filter (fun z => decide (z.date = d)) := by
  simpa using sortDesc_aux_filter d l [] List.Pairwise.nil

/-! ## Lemmas about the pipeline -/

theorem collectNews_cons (g : Feed) (fs : List Feed) :
    collectNews (g :: fs) =
      match procFeed g with
      | .error e => .error e
      | .ok items =>
        match collectNews fs with
        | .error e => .error e
        | .ok rest => .ok (items ++ rest) := rfl

theorem procItem_ok_some {url : List Char} {item : XmlElem} {n : NewsItem}
    (h : procItem url item = .ok (some n)) :
    ∃ t link, fieldText item (("title").toList) = some t ∧ t ≠ [] ∧
      fieldText item (("link").toList) = some link ∧
      n = buildItem url t link (fieldText item (("description").toList))
            (fieldText item (("pubDate").toList)) := by
  unfold procItem at h
  split at h
  · simp at h
  · next hT =>
    split at h
    · simp at h
    · split at h
      · simp at h
      · next link hlink =>
        simp only [Except.ok.injEq, Option.some.injEq] at h
        have hT2 : pyTruthy (fieldText item (("title").toList)) = true := by
          rcases Bool.eq_false_or_eq_true (pyTruthy (fieldText item (("title").toList)))
            with h1 | h1
          · exact h1
          · exact absurd h1 hT
        obtain ⟨t, ht, htne⟩ :
            ∃ t, fieldText item (("title").toList) = some t ∧ t ≠ [] := by
          cases hft : fieldText item (("title").toList) with
          | none => rw [hft] at hT2; cases hT2
          | some t =>
            cases t with
            | nil => rw [hft] at hT2; cases hT2
            | cons a t' => exact ⟨a :: t', rfl, by simp⟩
        refine ⟨t, link, ht, htne, hlink, ?_⟩
        rw [← h, ht]
        rfl

theorem mkDatetime_min_le {y mo d h mi s : Int} {dt : DateTime}
    (hm : mkDatetime y mo d h mi s = some dt) : dateLE datetimeMin dt = true := by
  unfold mkDatetime at hm
  split at hm
  · next hb =>
    simp only [Option.some.injEq] at hm
    rw [← hm]
    have hlt : dateLT (DateTime.mk y mo d h mi s) datetimeMin = false := by
      rw [Bool.eq_false_iff]
      intro hlt
      rw [dateLT_iff] at hlt
      simp only [datetimeMin] at hlt
      omega
    unfold dateLE
    rw [hlt]
    rfl
  · cases hm

/-! ## Claims -/

/-- C1 (amended): `get_news` drops an item whose raw title is missing or
empty (Python-falsy) before building a NewsItem, and stores the raw
title stripped of surrounding whitespace; the stored title is non-empty
whenever the raw title contains a non-whitespace character — but a
whitespace-only raw title passes the truthiness guard and yields an
empty stored title, so the stored title is not always non-empty. -/
theorem c1_title_guard_amended :
    ∀ (url : List Char) (item : XmlElem) (n : NewsItem),
      procItem url item = .ok (some n) →
      ∃ t, fieldText item (("title").toList) = some t ∧ t ≠ [] ∧
        n.title = pyStrip t ∧
        ((∃ c ∈ t, isPyWs c = false) → n.title ≠ []) := by
  intro url item n h
  obtain ⟨t, link, ht, htne, hlink, hn⟩ := procItem_ok_some h
  refine ⟨t, ht, htne, ?_, ?_⟩
  · rw [hn]
    rfl
  · intro hc
    obtain ⟨c, hcm, hcw⟩ := hc
    rw [hn]
    show pyStrip t ≠ []
    exact pyStrip_ne_nil hcm hcw

/-- C1 counterexample: an item whose raw title is the single space " "
(truthy in Python) and whose description matches the keyword "ai"
reaches the output list with an empty stored title, refuting the
invariant that every produced NewsItem has a non-empty trimmed title. -/
theorem c1_counterexample :
    procItem (("u").toList) cexItem = .ok (some cexNews) ∧ cexNews.title = [] :=
  ⟨rfl, rfl⟩

/-- C1 witness: a concrete accepted item instantiating the amended
claim. -/
theorem c1_witness :
    ∃ t, fieldText witItem1 (("title").toList) = some t ∧ t ≠ [] ∧
      witNews1.title = pyStrip t ∧
      ((∃ c ∈ t, isPyWs c = false) → witNews1.title ≠ []) :=
  c1_title_guard_amended (("w").toList) witItem1 witNews1 (by rfl)

/-- C2: the keyword filter lowercases title and description, joins them
with one space, and accepts exactly on a word-boundary match of some
keyword: the keyword "ai" does not match inside "said" or "aim", but
matches the standalone token "AI" after lowercasing; the multi-word
keyword "machine learning" matches only as a contiguous phrase, not when
"machine" and "learning" occur separately; and any keyword of the list
matching the combined text with word boundaries makes the item pass. -/
theorem c2_keyword_word_boundaries :
    reWordSearch (("ai").toList) (("he said hello").toList) = false ∧
    reWordSearch (("ai").toList) (("they aim high").toList) = false ∧
    reWordSearch (("ai").toList) (toLowerL (("The AI won").toList)) = true ∧
    itemMatches (("The AI won").toList) none = true ∧
    reWordSearch (("machine learning").toList)
      (combinedText (("Uses machine learning daily").toList) none) = true ∧
    reWordSearch (("machine learning").toList)
      (combinedText (("machine tools for learning").toList) none) = false ∧
    itemMatches (("machine tools for learning").toList) none = false ∧
    (∀ (title : List Char) (desc : Option (List Char)) (k : List Char),
       k ∈ KEYWORDS → reWordSearch k (combinedText title desc) = true →
       itemMatches title desc = true) := by
  refine ⟨by decide, by decide, by decide, by decide, by decide, by decide, by decide, ?_⟩
  intro title desc k hk hs
  unfold itemMatches
  exact List.any_eq_true.mpr ⟨k, hk, hs⟩

/-- C2 witness: instantiating the quantified part at the keyword
"python". -/
theorem c2_witness : itemMatches (("python rocks").toList) none = true :=
  c2_keyword_word_boundaries.2.2.2.2.2.2.2 (("python rocks").toList) none
    (("python").toList) (by decide) (by decide)

/-- C3: for every accepted item, a non-empty raw description is stored
as the sanitized description cut to its first 200 characters with "..."
appended — appended even when the sanitized text is at most 200
characters, in which case nothing is cut; an empty or absent raw
description is stored as the fixed placeholder "No description.". -/
theorem c3_description_truncation :
    ∀ (url : List Char) (item : XmlElem) (n : NewsItem),
      procItem url item = .ok (some n) →
      (∀ ds : List Char, fieldText item (("description").toList) = some ds → ds ≠ [] →
         n.desc = (clean_html ds).take 200 ++ ("...").toList ∧
         ((clean_html ds).length ≤ 200 → n.desc = clean_html ds ++ ("...").toList)) ∧
      ((fieldText item (("description").toList) = some [] ∨
        fieldText item (("description").toList) = none) →
        n.desc = ("No description.").toList) := by
  intro url item n h
  obtain ⟨t, link, ht, htne, hlink, hn⟩ := procItem_ok_some h
  constructor
  · intro ds hds hdsne
    have hdesc : n.desc = descField (some ds) := by
      rw [hn]
      show descField (fieldText item (("description").toList)) = _
      rw [hds]
    cases ds with
    | nil => exact absurd rfl hdsne
    | cons a ds' =>
      constructor
      · rw [hdesc]
        rfl
      · intro hlen
        rw [hdesc]
        show (clean_html (a :: ds')).take 200 ++ ("...").toList = _
        rw [List.take_of_length_le hlen]
  · intro hcase
    have hdesc : n.desc = descField (fieldText item (("description").toList)) := by
      rw [hn]
      rfl
    rcases hcase with hds | hds <;> rw [hdesc, hds] <;> rfl

/-- C3 witness: a concrete accepted item with a short tagged
description receives the full sanitized text plus the ellipsis. -/
theorem c3_witness :
    witNews3.desc = clean_html (("<b>AI</b> wins").toList) ++ ("...").toList :=
  ((c3_description_truncation (("w").toList) witItem3 witNews3 (by rfl)).1
    (("<b>AI</b> wins").toList) (by rfl) (by decide)).2 (by decide)

/-- C4: in date mode the output is the collected item list stably sorted
by publishDate descending and then sliced: the ranked list is a
permutation of the collected list, consecutive items are in
non-increasing date order (so items with distinct dates appear newest
first), items sharing any fixed date — the sentinel included — keep
their collection order (their filtered sublist is unchanged), and the
ranking is a pure function of the collected input, so two runs on the
same fetched data give identical output. -/
theorem c4_date_mode_stable_sort :
    (∀ l : List NewsItem, (sortDesc l).Perm l) ∧
    (∀ l : List NewsItem,
       (sortDesc l).Pairwise (fun a b => dateLE b.date a.date = true)) ∧
    (∀ (l : List NewsItem) (d : DateTime),
       (sortDesc l).filter (fun z => decide (z.date = d)) =
         l.filter (fun z => decide (z.date = d))) ∧
    (∀ (oracle : List NewsItem → List NewsItem) (limit : Int) (feeds : List Feed)
       (items : List NewsItem), collectNews feeds = .ok items →
       get_news false oracle limit feeds = .ok (pySliceTo (sortDesc items) limit)) := by
  refine ⟨sortDesc_perm, sortDesc_pairwise, fun l d => sortDesc_filter d l, ?_⟩
  intro oracle limit feeds items hc
  unfold get_news
  rw [hc]
  rfl

/-- C4 witness: the date-mode equation instantiated on a concrete run. -/
theorem c4_witness :
    get_news false id 2 [feedA, feedB] =
      .ok (pySliceTo (sortDesc [newsA1, newsA2, newsA3]) 2) :=
  c4_date_mode_stable_sort.2.2.2 id 2 [feedA, feedB] [newsA1, newsA2, newsA3] (by rfl)

/-- C5 (amended): the date normalizer is total; it returns the sentinel
minimum timestamp for the empty input and for every input on which
parsing fails, and on success it returns the parsed timestamp, which the
sentinel sorts before-or-equal to (not strictly before: pathological
non-RFC strings can parse successfully to exactly the sentinel value,
see the counterexample). -/
theorem c5_sentinel_amended :
    parse_date [] = datetimeMin ∧
    (∀ s : List Char, parsedate_to_datetime s = none → parse_date s = datetimeMin) ∧
    (∀ (s : List Char) (d : DateTime), parsedate_to_datetime s = some d →
       parse_date s = d ∧ dateLE datetimeMin d = true) := by
  refine ⟨rfl, ?_, ?_⟩
  · intro s h
    unfold parse_date
    by_cases hs : s = []
    · rw [if_pos hs]
    · rw [if_neg hs, h]
  · intro s d h
    have hsne : s ≠ [] := by
      intro hs
      subst hs
      rw [show parsedate_to_datetime ([] : List Char) = none from rfl] at h
      cases h
    constructor
    · unfold parse_date
      rw [if_neg hsne, h]
    · unfold parsedate_to_datetime at h
      cases hp : parsedate_tz s with
      | none => rw [hp] at h; cases h
      | some tup =>
        rw [hp] at h
        obtain ⟨y, mo, dd, hh, mi, se, tzo⟩ := tup
        cases tzo with
        | none => exact mkDatetime_min_le h
        | some off =>
          simp only at h
          split at h
          · exact mkDatetime_min_le h
          · cases h

/-- C5 counterexample: the string "1 Jan X 00:00:00 -1999" parses
successfully (the year token is swapped with the timezone token, -1999
is then remapped to year 1 by the two-digit-year rule) and yields
exactly 0001-01-01 00:00:00 = the sentinel, so the sentinel does not
sort strictly before every successfully parsed timestamp. -/
theorem c5_counterexample :
    parsedate_to_datetime (("1 Jan X 00:00:00 -1999").toList) = some datetimeMin ∧
    dateLT datetimeMin datetimeMin = false :=
  ⟨rfl, rfl⟩

/-- C5 witness: the amended claim instantiated on a failing input and on
a successfully parsed RFC-2822 date. -/
theorem c5_witness :
    parse_date (("not a date").toList) = datetimeMin ∧
    (parse_date (("Mon, 06 Jan 2025 10:00:00 +0000").toList) =
       ⟨2025, 1, 6, 10, 0, 0⟩ ∧
     dateLE datetimeMin ⟨2025, 1, 6, 10, 0, 0⟩ = true) :=
  ⟨c5_sentinel_amended.2.1 (("not a date").toList) (by rfl),
   c5_sentinel_amended.2.2 (("Mon, 06 Jan 2025 10:00:00 +0000").toList)
     ⟨2025, 1, 6, 10, 0, 0⟩ (by rfl)⟩

/-- C6: a feed whose payload is malformed XML contributes no items and
no error (the ParseError is caught), a well-formed document without a
top-level channel element likewise contributes the empty list, and a
missing title/link/description/pubDate element of an item is read as
the empty string. -/
theorem c6_malformed_feed_skipped :
    (∀ url : List Char, procFeed ⟨url, .malformed⟩ = .ok []) ∧
    (∀ (url : List Char) (root : XmlElem),
       findChild root (("channel").toList) = none →
       procFeed ⟨url, .parsed root⟩ = .ok []) ∧
    (∀ (item : XmlElem) (t : List Char),
       findChild item t = none → fieldText item t = some []) := by
  refine ⟨fun _ => rfl, ?_, ?_⟩
  · intro url root h
    show (match findChild root (("channel").toList) with
          | none => (Except.ok [] : Except Unit (List NewsItem))
          | some ch => procItems url (findAllChildren ch (("item").toList))) = Except.ok []
    rw [h]
  · intro item t h
    unfold fieldText
    rw [h]

/-- C6 witness: a concrete channel-less document is skipped, and a
missing element reads as the empty string. -/
theorem c6_witness :
    procFeed ⟨("http://w").toList, .parsed emptyRoot⟩ = .ok [] ∧
    fieldText emptyRoot (("title").toList) = some [] :=
  ⟨c6_malformed_feed_skipped.2.1 (("http://w").toList) emptyRoot rfl,
   c6_malformed_feed_skipped.2.2 emptyRoot (("title").toList) rfl⟩

/-- C7: aggregation is partial-failure tolerant: a source with a failed
fetch or a malformed payload contributes the empty list, and removing
such a source anywhere in the source list leaves the aggregate of the
others unchanged; concretely, with source A yielding three matching
items and source B failing entirely, the result is exactly the three A
items sorted by date descending. -/
theorem c7_partial_failure_tolerance :
    (∀ url : List Char, procFeed ⟨url, .failed⟩ = .ok []) ∧
    (∀ (pre post : List Feed) (f : Feed),
       f.result = .failed ∨ f.result = .malformed →
       collectNews (pre ++ f :: post) = collectNews (pre ++ post)) ∧
    get_news false id 4 [feedA, feedB] = .ok [newsA2, newsA1, newsA3] := by
  refine ⟨fun _ => rfl, ?_, by rfl⟩
  intro pre post f hf
  have hproc : procFeed f = .ok [] := by
    obtain ⟨u, r⟩ := f
    cases r with
    | failed => rfl
    | malformed => rfl
    | parsed root =>
      exfalso
      rcases hf with hf | hf <;> simp_all
  induction pre with
  | nil =>
    simp only [List.nil_append]
    rw [collectNews_cons, hproc]
    cases h2 : collectNews post with
    | error e => rfl
    | ok rest => simp
  | cons g pre' ih =>
    simp only [List.cons_append]
    rw [collectNews_cons, collectNews_cons, ih]

/-- C7 witness: removing the failing source B from the middle of a
source list leaves the aggregate unchanged. -/
theorem c7_witness :
    collectNews ([feedB] ++ feedB :: [feedA]) = collectNews ([feedB] ++ [feedA]) :=
  c7_partial_failure_tolerance.2.1 [feedB] [feedA] feedB (Or.inl rfl)

/-- C8: `MAX_ITEMS` (the default limit) is 4, and for every non-negative
limit the date-mode result is exactly the first `min(limit, length)`
items of the ranked list: the slice of the sorted collection, whose
length is `min limit items.length`, and the whole ranked list — with no
padding and no error — when the limit is at least the number of
collected items. -/
theorem c8_limit_truncation :
    MAX_ITEMS = 4 ∧
    ∀ (feeds : List Feed) (items : List NewsItem) (limit : Int),
      0 ≤ limit → collectNews feeds = .ok items →
      get_news false id limit feeds = .ok ((sortDesc items).take limit.toNat) ∧
      ((sortDesc items).take limit.toNat).length = min limit.toNat items.length ∧
      ((items.length : Int) ≤ limit → (sortDesc items).take limit.toNat = sortDesc items) := by
  refine ⟨rfl, ?_⟩
  intro feeds items limit hlim hc
  have hlen : (sortDesc items).length = items.length := (sortDesc_perm items).length_eq
  refine ⟨?_, ?_, ?_⟩
  · unfold get_news
    rw [hc]
    show Except.ok (pySliceTo (sortDesc items) limit) = _
    unfold pySliceTo
    rw [if_pos hlim]
  · rw [List.length_take, hlen]
  · intro hle
    apply List.take_of_length_le
    rw [hlen]
    omega

/-- C8 witness: a limit larger than the collected set returns all
collected items. -/
theorem c8_witness :
    get_news false id 10 [feedA, feedB] =
      .ok ((sortDesc [newsA1, newsA2, newsA3]).take (10 : Int).toNat) ∧
    ((sortDesc [newsA1, newsA2, newsA3]).take (10 : Int).toNat).length =
      min (10 : Int).toNat [newsA1, newsA2, newsA3].length ∧
    (([newsA1, newsA2, newsA3].length : Int) ≤ 10 →
      (sortDesc [newsA1, newsA2, newsA3]).take (10 : Int).toNat =
        sortDesc [newsA1, newsA2, newsA3]) :=
  c8_limit_truncation.2 [feedA, feedB] [newsA1, newsA2, newsA3] 10 (by decide) (by rfl)

/-- C10: because the final truncation is a Python slice, limit 0 yields
the empty list and a negative limit yields all ranked items except the
last `|limit|` (`take (length - |limit|)`), not "as many as are
available". -/
theorem c10_slice_edge_cases :
    ∀ (feeds : List Feed) (items : List NewsItem) (n : Nat),
      collectNews feeds = .ok items →
      get_news false id 0 feeds = .ok [] ∧
      get_news false id (-(n + 1 : Int)) feeds =
        .ok ((sortDesc items).take (items.length - (n + 1))) := by
  intro feeds items n hc
  have hlen : (sortDesc items).length = items.length := (sortDesc_perm items).length_eq
  constructor
  · unfold get_news
    rw [hc]
    show Except.ok (pySliceTo (sortDesc items) 0) = _
    unfold pySliceTo
    simp
  · unfold get_news
    rw [hc]
    show Except.ok (pySliceTo (sortDesc items) (-(n + 1 : Int))) = _
    unfold pySliceTo
    rw [if_neg (by omega)]
    have he : (((sortDesc items).length : Int) + -(n + 1 : Int)).toNat =
        items.length - (n + 1) := by
      rw [hlen]
      omega
    rw [he]

/-- C10 witness: the slice edge cases on a concrete run: limit 0 gives
the empty list, limit -1 drops the last ranked item. -/
theorem c10_witness :
    get_news false id 0 [feedA, feedB] = .ok [] ∧
    get_news false id (-(0 + 1 : Int)) [feedA, feedB] =
      .ok ((sortDesc [newsA1, newsA2, newsA3]).take
        ([newsA1, newsA2, newsA3].length - (0 + 1))) :=
  c10_slice_edge_cases [feedA, feedB] [newsA1, newsA2, newsA3] 0 (by rfl)

/-- C9: the text sanitizer is idempotent on already-clean input: on any
string with no `<...>` tag substring and no ampersand (hence no HTML
entity), `clean_html` only trims surrounding whitespace, so sanitizing
twice equals sanitizing once; empty or absent input yields the empty
string. -/
theorem c9_sanitizer_idempotent :
    clean_html [] = [] ∧
    ∀ s : List Char, containsTag s = false → s.contains '&' = false →
      clean_html s = pyStrip s ∧ clean_html (clean_html s) = clean_html s := by
  have key : ∀ t : List Char, containsTag t = false → t.contains '&' = false →
      clean_html t = pyStrip t := by
    intro t h1 h2
    by_cases ht : t = []
    · subst ht; rfl
    · unfold clean_html
      rw [if_neg ht, stripTags_eq_self h1, unescape_eq_self h2]
  refine ⟨rfl, ?_⟩
  intro s hTag hAmp
  have h1 := key s hTag hAmp
  refine ⟨h1, ?_⟩
  rw [h1]
  have hTag2 : containsTag (pyStrip s) = false :=
    containsTag_of_infix (pyStrip_part s) hTag
  have hAmp2 : (pyStrip s).contains '&' = false := by
    apply contains_eq_false_of_not_mem
    intro hm
    have hmem : '&' ∈ s := ((pyStrip_part s).sublist.subset) hm
    have helem : s.elem '&' = true := List.elem_eq_true_of_mem hmem
    rw [show s.contains '&' = s.elem '&' from rfl, helem] at hAmp
    cases hAmp
  rw [key (pyStrip s) hTag2 hAmp2, pyStrip_idem]

/-- C9 witness: a concrete whitespace-padded plain string is only
trimmed, and re-sanitizing it changes nothing. -/
theorem c9_witness :
    clean_html (("  plain text  ").toList) = pyStrip (("  plain text  ").toList) ∧
    clean_html (clean_html (("  plain text  ").toList)) =
      clean_html (("  plain text  ").toList) :=
  c9_sanitizer_idempotent.2 (("  plain text  ").toList) (by decide) (by decide)
